import Mathlib

/-!
Shallow embedding of the analytical core of the `cosmic_web` repository:
the point-to-polyline projection / arc-length engine
(`src/cosmic_web/geometry.py`), the `Filament` wrapper
(`src/cosmic_web/filament.py`), the mapping glue
(`src/cosmic_web/mapping.py`) and the jackknife statistics engine
(`src/cosmic_web/jackknife.py`).

Modelling conventions.
* Python floats are modelled by exact rationals `ℚ`; the only genuinely
  irrational operations in the source are `np.sqrt` / `np.linalg.norm`,
  which are modelled by `Real.sqrt` over `ℝ`.
* To keep the scan in `project_point_onto_polyline` executable we carry
  the *squared* Euclidean distance `dist2 : ℚ` through the scan and
  recover the source's `distance` as `Real.sqrt dist2`.  The source
  compares `distance < best_distance`; since `Real.sqrt` is strictly
  monotone on nonnegative arguments this is equivalent to
  `dist2 < best_dist2` (lemma `sqrt_lt_sqrt_iff_of_nonneg` below), so
  the selection and tie-breaking behaviour is preserved exactly.
* `raise ValueError` is modelled by `Except.error`; the exact message
  text is irrelevant to the claims.
* numpy shape validation (`ndim != 2 or shape[1] != 3`) is modelled on
  `List (List ℚ)` inputs: the empty list (numpy sees a 1-D array of
  shape `(0,)`) and any row of length ≠ 3 fail validation.
-/

namespace CosmicWeb

/-- Decidable equality for `Except`, used only to settle concrete
evaluations of the model by `decide`. -/
instance {ε α : Type} [DecidableEq ε] [DecidableEq α] :
    DecidableEq (Except ε α) := fun x y =>
  match x, y with
  | .ok a, .ok b =>
    if h : a = b then .isTrue (by rw [h])
    else .isFalse (by intro hc; cases hc; exact h rfl)
  | .error a, .error b =>
    if h : a = b then .isTrue (by rw [h])
    else .isFalse (by intro hc; cases hc; exact h rfl)
  | .ok _, .error _ => .isFalse (by intro hc; cases hc)
  | .error _, .ok _ => .isFalse (by intro hc; cases hc)

/-- Mean of a list of rationals, `np.mean(vals) = sum / len`.  (For the
empty list numpy produces NaN; in this model `0 / 0 = 0`.  Every code
path of `compute_jackknife_mean` that could observe the mean of an
empty list raises first, so the difference is unobservable in `ok`
results.) -/
def meanQ (l : List ℚ) : ℚ := l.sum / l.length

/-- `JackknifeAssignment` dataclass (`jackknife.py` lines 9-22):
`region_ids` is the `(N,)` integer array, `n_regions` the region
count. -/
structure JackknifeAssignment where
  region_ids : List ℤ
  n_regions : ℤ
  deriving Repr, DecidableEq

/-- `JackknifeStats` dataclass (`jackknife.py` lines 25-44) minus the
`stderr` field, which is irrational (`sqrt`) and is modelled by
`jackknife_stderr` below, exactly as line 163 computes it from
`variance`. -/
structure JackknifeStats where
  theta_full : ℚ
  theta_jackknife : ℚ
  variance : ℚ
  deriving Repr, DecidableEq

/-- `stderr = float(np.sqrt(variance))` (`jackknife.py` line 163). -/
noncomputable def jackknife_stderr (s : JackknifeStats) : ℝ :=
  Real.sqrt s.variance

/-- The leave-region-`k`-out subsample: the values whose region id is
not `k` (`jackknife.py` lines 156-159, `vals[region_ids != k]`).  The
`pairs` list is `values.zip region_ids`. -/
def subsample (pairs : List (ℚ × ℤ)) (k : ℤ) : List ℚ :=
  (pairs.filter (fun pr => pr.2 != k)).map Prod.fst

/-- The list `theta_k` of delete-one-region means, `theta_k[k] =
float(np.mean(vals[mask]))` for `k in range(R)` (`jackknife.py`
lines 154-159). -/
def jackknife_theta_k (values : List ℚ) (assignment : JackknifeAssignment) :
    List ℚ :=
  (List.range assignment.n_regions.toNat).map
    (fun k : ℕ => meanQ (subsample (values.zip assignment.region_ids) (k : ℤ)))

/-- `variance = (R - 1) / R * np.sum((theta_k - theta_bar) ** 2)`
(`jackknife.py` line 162), with `theta_bar = np.mean(theta_k)`
(line 161). -/
def jackknife_variance (theta_k : List ℚ) (R : ℕ) : ℚ :=
  ((R : ℚ) - 1) / R * (theta_k.map (fun t => (t - meanQ theta_k) ^ 2)).sum

/-- `compute_jackknife_mean(values, assignment)` (`jackknife.py`
lines 115-170).  Validation order follows the source: length mismatch
(line 145), `R <= 1` (line 149), then the per-region loop raising when
some leave-one-out subsample is empty (lines 155-158).  The source
raises at the first empty `k`; this model tests all `k` at once, which
produces an error on exactly the same inputs. -/
def compute_jackknife_mean (values : List ℚ) (assignment : JackknifeAssignment) :
    Except String JackknifeStats :=
  if assignment.region_ids.length ≠ values.length then
    .error "values and region_ids must have the same length"
  else if assignment.n_regions ≤ 1 then
    .error "at least two jackknife regions are required"
  else
    let R : ℕ := assignment.n_regions.toNat
    let theta_full := meanQ values
    let pairs := values.zip assignment.region_ids
    if (List.range R).all (fun k : ℕ => !(subsample pairs (k : ℤ)).isEmpty) then
      let theta_k := jackknife_theta_k values assignment
      .ok ⟨theta_full, meanQ theta_k, jackknife_variance theta_k R⟩
    else
      .error "region is empty; cannot form jackknife sample"

/-! ### Geometry engine (`geometry.py`), `Filament` (`filament.py`) and
mapping glue (`mapping.py`)

A 3-vector is a `Vec3` of exact rationals.  Wherever the source takes a
raw numpy array whose shape is validated at entry (`ndim != 2 or
shape[1] != 3`), the model takes `List (List ℚ)` rows and performs the
same checks; wherever the shape is already established the model uses
`Vec3` / `List Vec3` directly. -/

/-- A 3-component vector (one validated row of an `(N, 3)` array). -/
structure Vec3 where
  x : ℚ
  y : ℚ
  z : ℚ
  deriving Repr, DecidableEq

instance : Inhabited Vec3 := ⟨⟨0, 0, 0⟩⟩

/-- Componentwise difference, `b - a` style numpy arithmetic. -/
def Vec3.sub (a b : Vec3) : Vec3 := ⟨a.x - b.x, a.y - b.y, a.z - b.z⟩

/-- Componentwise sum. -/
def Vec3.add (a b : Vec3) : Vec3 := ⟨a.x + b.x, a.y + b.y, a.z + b.z⟩

/-- Scalar multiple. -/
def Vec3.smul (c : ℚ) (a : Vec3) : Vec3 := ⟨c * a.x, c * a.y, c * a.z⟩

/-- `np.dot`. -/
def Vec3.dot (a b : Vec3) : ℚ := a.x * b.x + a.y * b.y + a.z * b.z

/-- Squared Euclidean norm (exact, rational). -/
def Vec3.norm2 (a : Vec3) : ℚ := a.dot a

/-- `np.linalg.norm`: the Euclidean norm, an irrational real. -/
noncomputable def Vec3.norm (a : Vec3) : ℝ := Real.sqrt a.norm2

/-- A validated row of three rationals as a `Vec3`. -/
def toVec3 (row : List ℚ) : Vec3 := ⟨row.getD 0 0, row.getD 1 0, row.getD 2 0⟩

/-- Result of `project_point_onto_segment` (`geometry.py` lines 75-119).
The source returns `(distance, closest_point, t)`; the model carries
the squared distance `dist2` (so the scan stays executable) and the
source's `distance` is `Real.sqrt dist2` (see `sqrt_lt_sqrt_iff_of_nonneg`
for why the comparisons agree). -/
structure SegResult where
  dist2 : ℚ
  closest : Vec3
  t : ℚ
  deriving Repr, DecidableEq

/-- `project_point_onto_segment(point, start, end)` (`geometry.py`
lines 75-119): degenerate segment (`ab2 == 0`) treated as the single
point `start` with `t = 0`; otherwise the raw parameter
`dot(p - a, ab) / ab2` is clamped to `[0, 1]` and the closest point is
`a + t_clamped * ab`. -/
def project_point_onto_segment (p a b : Vec3) : SegResult :=
  let ab := b.sub a
  let ab2 := ab.dot ab
  if ab2 = 0 then
    ⟨(p.sub a).norm2, a, 0⟩
  else
    let t := (p.sub a).dot ab / ab2
    let t_clamped := max 0 (min 1 t)
    let closest := a.add (Vec3.smul t_clamped ab)
    ⟨(p.sub closest).norm2, closest, t_clamped⟩

/-- A candidate of the per-segment scan in
`project_point_onto_polyline` (`geometry.py` lines 153-161). -/
structure Cand where
  dist2 : ℚ
  point : Vec3
  segIndex : ℕ
  t : ℚ
  deriving Repr, DecidableEq

/-- The candidate produced by segment `i` (vertices `v[i]`, `v[i+1]`). -/
def segCand (p : Vec3) (v : List Vec3) (i : ℕ) : Cand :=
  let r := project_point_onto_segment p (v.getD i default) (v.getD (i + 1) default)
  ⟨r.dist2, r.closest, i, r.t⟩

/-- The real distance of the candidate of segment `i` (the `distance`
the source's segment routine returns for that segment). -/
noncomputable def segDistance (p : Vec3) (v : List Vec3) (i : ℕ) : ℝ :=
  Real.sqrt (segCand p v i).dist2

/-- One step of the scan: `if distance < best_distance: ...`
(`geometry.py` lines 157-161).  `none` models the initial
`best_distance = np.inf` state (line 145), which every finite distance
beats. -/
def updateBest (best : Option Cand) (c : Cand) : Option Cand :=
  match best with
  | none => some c
  | some b => if c.dist2 < b.dist2 then some c else some b

/-- The scan over all `N - 1` segments in index order
(`geometry.py` lines 153-161). -/
def scanSegments (p : Vec3) (v : List Vec3) : Option Cand :=
  (List.range (v.length - 1)).foldl
    (fun acc i => updateBest acc (segCand p v i)) none

/-- Squared length of segment `j` of the polyline. -/
def seg_length2 (v : List Vec3) (j : ℕ) : ℚ :=
  ((v.getD (j + 1) default).sub (v.getD j default)).norm2

/-- Length of segment `j` (`np.linalg.norm(diffs, axis=1)[j]`,
`geometry.py` lines 67-68 and 150-151). -/
noncomputable def seg_length (v : List Vec3) (j : ℕ) : ℝ :=
  Real.sqrt (seg_length2 v j)

/-- Cumulative arc length at vertex `i`: the sum of the lengths of
segments `0, …, i-1` — what `np.cumsum(seg_lengths)` stores at `i`
(with `arc[0] = 0.0`, `geometry.py` lines 69-71). -/
noncomputable def arc_length_at (v : List Vec3) (i : ℕ) : ℝ :=
  ∑ j ∈ Finset.range i, seg_length v j

/-- The full cumulative arc-length array of a vertex list. -/
noncomputable def arcList (v : List Vec3) : List ℝ :=
  (List.range v.length).map (arc_length_at v)

/-- `compute_arc_lengths(vertices)` (`geometry.py` lines 43-72):
shape validation (the empty list is numpy's 1-D `shape (0,)` array and
fails the `ndim != 2` check; a row of length ≠ 3 fails the
`shape[1] != 3` check), the `[0.0]` single-vertex case (line 64-65,
which coincides with the general cumulative-sum formula), and the
cumulative sums otherwise. -/
noncomputable def compute_arc_lengths (rows : List (List ℚ)) :
    Except String (List ℝ) :=
  if rows.isEmpty then
    .error "vertices must have shape (N, 3)"
  else if !(rows.all (fun r => r.length == 3)) then
    .error "vertices must have shape (N, 3)"
  else
    .ok (arcList (rows.map toVec3))

/-- `ProjectionResult` dataclass (`geometry.py` lines 9-31). -/
structure ProjectionResult where
  distance : ℝ
  closest_point : Vec3
  segment_index : ℕ
  t : ℚ
  s_along : ℝ

/-- `project_point_onto_polyline(point, vertices)` (`geometry.py`
lines 122-172).  The `(N, 3)` shape of the vertices is carried by the
`List Vec3` type; `_validate_vertices`' remaining check is
`N ≥ 2` (line 38-39).  The scan keeps the strictly smaller candidate
(line 157); `s_along = arc[i] + t * seg_len` is line 164.  The `none`
case of the scan cannot occur for `N ≥ 2`. -/
noncomputable def project_point_onto_polyline (p : Vec3) (v : List Vec3) :
    Except String ProjectionResult :=
  if v.length < 2 then
    .error "polyline requires at least 2 vertices"
  else
    match scanSegments p v with
    | none => .error "polyline requires at least 2 vertices"
    | some c =>
      .ok ⟨Real.sqrt c.dist2, c.point, c.segIndex, c.t,
        arc_length_at v c.segIndex + c.t * seg_length v c.segIndex⟩

/-- `Filament` dataclass (`filament.py` lines 11-24). -/
structure Filament where
  vertices : List Vec3
  arc_lengths : List ℝ

/-- `Filament.from_vertices` (`filament.py` lines 26-46): validates the
shape and `N ≥ 2`, precomputes arc lengths. -/
noncomputable def Filament.from_vertices (rows : List (List ℚ)) :
    Except String Filament :=
  if rows.isEmpty then
    .error "vertices must have shape (N, 3)"
  else if !(rows.all (fun r => r.length == 3)) then
    .error "vertices must have shape (N, 3)"
  else if rows.length < 2 then
    .error "filament requires at least 2 vertices"
  else
    .ok ⟨rows.map toVec3, arcList (rows.map toVec3)⟩

/-- `Filament.length` (`filament.py` lines 48-51):
`arc_lengths[-1]`. -/
noncomputable def Filament.length (f : Filament) : ℝ :=
  f.arc_lengths.getLastD 0

/-- `Filament.project_point` (`filament.py` lines 53-68): coerces the
point (`np.asarray(point)`; a row of length ≠ 3 fails the `reshape(3)`
inside the geometry routine) and projects onto the spine. -/
noncomputable def Filament.project_point (f : Filament) (point : List ℚ) :
    Except String ProjectionResult :=
  if point.length == 3 then
    project_point_onto_polyline (toVec3 point) f.vertices
  else
    .error "cannot reshape array to (3,)"

/-- A points argument as numpy sees it: either a 1-D (flat) array or a
2-D batch of rows. -/
inductive PointsInput where
  | flat (p : List ℚ)
  | batch (ps : List (List ℚ))

/-- `Filament.project_points` (`filament.py` lines 70-90): a 1-D input
is reshaped to a batch of one (`pts.reshape(1, 3)`, which requires
exactly 3 entries), then each row is projected in order. -/
noncomputable def Filament.project_points (f : Filament)
    (input : PointsInput) : Except String (List ProjectionResult) :=
  let pts : Option (List (List ℚ)) :=
    match input with
    | .flat p => if p.length == 3 then some [p] else none
    | .batch ps => some ps
  match pts with
  | none => .error "cannot reshape array to (1, 3)"
  | some rows => rows.mapM f.project_point

/-- `Filament.distances_and_s_along` (`filament.py` lines 92-111):
projects the batch and extracts the `distance` and `s_along` arrays. -/
noncomputable def Filament.distances_and_s_along (f : Filament)
    (input : PointsInput) : Except String (List ℝ × List ℝ) :=
  (f.project_points input).map
    (fun rs => (rs.map (fun r => r.distance), rs.map (fun r => r.s_along)))

/-- `GalaxyFilamentMapping` dataclass (`mapping.py` lines 12-28). -/
structure GalaxyFilamentMapping where
  coords_xyz : List (List ℚ)
  distances : List ℝ
  s_along : List ℝ

/-- `map_cartesian_to_filament(coords_xyz, filament)` (`mapping.py`
lines 31-56): a 1-D input is reshaped to one row
(`coords.reshape(1, 3)`), the column count is validated, and the
filament's `distances_and_s_along` is packaged with the coordinates. -/
noncomputable def map_cartesian_to_filament (input : PointsInput)
    (filament : Filament) : Except String GalaxyFilamentMapping :=
  let coords : Option (List (List ℚ)) :=
    match input with
    | .flat p => if p.length == 3 then some [p] else none
    | .batch ps => some ps
  match coords with
  | none => .error "cannot reshape array to (1, 3)"
  | some rows =>
    if !(rows.all (fun r => r.length == 3)) then
      .error "coords_xyz must have shape (N, 3)"
    else
      (filament.distances_and_s_along (.batch rows)).map
        (fun ds => ⟨rows, ds.1, ds.2⟩)

/-! ### Jackknife grid assignment (`jackknife.py` lines 47-112) -/

/-- numpy's `.astype(int)`: truncation toward zero. -/
def truncQ (q : ℚ) : ℤ := if q < 0 then ⌈q⌉ else ⌊q⌋

/-- `np.clip(x, lo, hi)` on integers. -/
def clipZ (v lo hi : ℤ) : ℤ := max lo (min hi v)

/-- The fold computing `np.min` of a nonempty list. -/
def listMin (l : List ℚ) : ℚ := l.foldl min (l.headD 0)

/-- The fold computing `np.max` of a nonempty list. -/
def listMax (l : List ℚ) : ℚ := l.foldl max (l.headD 0)

/-- `assign_jackknife_grid_from_xyz(coords_xyz, n_regions, axes)`
(`jackknife.py` lines 47-112): validation (shape, positive region
count, valid and distinct axes), approximately square grid dimensions
`nx = floor(sqrt(n_regions))`, `ny = ceil(n_regions / nx)`, linear
rescaling of each point to cell indices truncated to int and clipped,
flat id `ix + nx * iy`, and the final clamp to `n_regions - 1`
(line 110). -/
def assign_jackknife_grid_from_xyz (rows : List (List ℚ)) (n_regions : ℤ)
    (axes : ℕ × ℕ) : Except String JackknifeAssignment :=
  if rows.isEmpty then
    .error "coords_xyz must have shape (N, 3)"
  else if !(rows.all (fun r => r.length == 3)) then
    .error "coords_xyz must have shape (N, 3)"
  else if n_regions ≤ 0 then
    .error "n_regions must be positive"
  else if 2 < axes.1 || 2 < axes.2 then
    .error "axes must be a tuple of two integers in 0,1,2"
  else if axes.1 == axes.2 then
    .error "axes must be distinct"
  else
    let x := rows.map (fun r => r.getD axes.1 0)
    let y := rows.map (fun r => r.getD axes.2 0)
    let nx : ℕ := Nat.sqrt n_regions.toNat
    let ny : ℕ := (n_regions.toNat + nx - 1) / nx
    let x_min := listMin x
    let x_max := listMax x
    let y_min := listMin y
    let y_max := listMax y
    let x_max := if x_max = x_min then x_min + 1 else x_max
    let y_max := if y_max = y_min then y_min + 1 else y_max
    let region_ids := (x.zip y).map (fun pr =>
      let ix := clipZ (truncQ ((pr.1 - x_min) / (x_max - x_min) * nx))
        0 ((nx : ℤ) - 1)
      let iy := clipZ (truncQ ((pr.2 - y_min) / (y_max - y_min) * ny))
        0 ((ny : ℤ) - 1)
      min (ix + (nx : ℤ) * iy) (n_regions - 1))
    .ok ⟨region_ids, n_regions⟩

/-! ### Auxiliary lemmas about list sums, filters and the subsample -/

/-- Sums of maps over `List.range` are `Finset.range` sums. -/
lemma list_range_map_sum (f : ℕ → ℚ) (R : ℕ) :
    ((List.range R).map f).sum = ∑ k ∈ Finset.range R, f k := by
  induction R with
  | zero => simp
  | succ n ih => rw [List.range_succ, Finset.sum_range_succ, List.map_append,
      List.sum_append, ih]; simp

/-- Splitting the sum of the first components of a pair list along a
Boolean predicate on the pairs. -/
lemma filter_map_fst_sum_split (L : List (ℚ × ℤ)) (p : ℚ × ℤ → Bool) :
    ((L.filter p).map Prod.fst).sum
      + ((L.filter (fun x => !(p x))).map Prod.fst).sum
      = (L.map Prod.fst).sum := by
  induction L with
  | nil => simp
  | cons x xs ih =>
    cases hp : p x <;> simp [List.filter_cons, hp, ← ih] <;> ring

/-- Splitting the length of a pair list along a Boolean predicate. -/
lemma filter_length_split (L : List (ℚ × ℤ)) (p : ℚ × ℤ → Bool) :
    (L.filter p).length + (L.filter (fun x => !(p x))).length = L.length := by
  induction L with
  | nil => simp
  | cons x xs ih =>
    cases hp : p x <;> simp [List.filter_cons, hp, ← ih] <;> omega

/-- The sum of the leave-`k`-out subsample is the total sum minus the
sum of the values assigned to region `k`. -/
lemma subsample_sum (L : List (ℚ × ℤ)) (k : ℤ) :
    (subsample L k).sum
      = (L.map Prod.fst).sum
        - ((L.filter (fun pr => pr.2 == k)).map Prod.fst).sum := by
  have h := filter_map_fst_sum_split L (fun pr => pr.2 == k)
  have hpred : (fun x : ℚ × ℤ => !(x.2 == k)) = (fun x : ℚ × ℤ => x.2 != k) := by
    funext x; simp [bne]
  rw [hpred] at h
  simp only [subsample]
  linarith [h]

/-- The length of the leave-`k`-out subsample is the total length minus
the number of values assigned to region `k`. -/
lemma subsample_length (L : List (ℚ × ℤ)) (k : ℤ) :
    (subsample L k).length + (L.filter (fun pr => pr.2 == k)).length
      = L.length := by
  have h := filter_length_split L (fun pr => pr.2 == k)
  have hpred : (fun x : ℚ × ℤ => !(x.2 == k)) = (fun x : ℚ × ℤ => x.2 != k) := by
    funext x; simp [bne]
  rw [hpred] at h
  simp only [subsample, List.length_map]
  omega

/-- Partitioning the sum of `g` over a pair list by the region of each
pair, when every region id is one of `0, …, R-1`. -/
lemma partition_sum (L : List (ℚ × ℤ)) (R : ℕ) (g : ℚ × ℤ → ℚ)
    (hin : ∀ pr ∈ L, ∃ k0 : ℕ, k0 < R ∧ pr.2 = (k0 : ℤ)) :
    (∑ k ∈ Finset.range R,
        ((L.filter (fun pr => pr.2 == (k : ℤ))).map g).sum)
      = (L.map g).sum := by
  induction L with
  | nil => simp
  | cons x xs ih =>
    have hx := hin x (by simp)
    obtain ⟨k0, hk0R, hk0⟩ := hx
    have hxs : ∀ pr ∈ xs, ∃ k0 : ℕ, k0 < R ∧ pr.2 = (k0 : ℤ) := by
      intro pr hpr; exact hin pr (by simp [hpr])
    have hsplit : ∀ k : ℕ,
        ((List.filter (fun pr => pr.2 == (k : ℤ)) (x :: xs)).map g).sum
          = (if x.2 = (k : ℤ) then g x else 0)
            + ((xs.filter (fun pr => pr.2 == (k : ℤ))).map g).sum := by
      intro k
      by_cases hk : x.2 = (k : ℤ) <;> simp [List.filter_cons, hk]
    simp only [hsplit, Finset.sum_add_distrib, ih hxs, List.map_cons,
      List.sum_cons]
    congr 1
    rw [hk0]
    have heq : ∀ k ∈ Finset.range R,
        (if (k0 : ℤ) = (k : ℤ) then g x else 0)
          = (if k = k0 then g x else 0) := by
      intro k _
      by_cases h : k = k0
      · simp [h]
      · have hc : (k0 : ℤ) ≠ (k : ℤ) := by exact_mod_cast Ne.symm h
        simp [h, hc]
    rw [Finset.sum_congr rfl heq]
    simp [Finset.sum_ite_eq', hk0R]

/-- Partitioning the length of a pair list by the region of each pair,
when every region id is one of `0, …, R-1`. -/
lemma partition_count (L : List (ℚ × ℤ)) (R : ℕ)
    (hin : ∀ pr ∈ L, ∃ k0 : ℕ, k0 < R ∧ pr.2 = (k0 : ℤ)) :
    (∑ k ∈ Finset.range R, (L.filter (fun pr => pr.2 == (k : ℤ))).length)
      = L.length := by
  induction L with
  | nil => simp
  | cons x xs ih =>
    have hx := hin x (by simp)
    obtain ⟨k0, hk0R, hk0⟩ := hx
    have hxs : ∀ pr ∈ xs, ∃ k0 : ℕ, k0 < R ∧ pr.2 = (k0 : ℤ) := by
      intro pr hpr; exact hin pr (by simp [hpr])
    have hsplit : ∀ k : ℕ,
        (List.filter (fun pr => pr.2 == (k : ℤ)) (x :: xs)).length
          = (if x.2 = (k : ℤ) then 1 else 0)
            + (xs.filter (fun pr => pr.2 == (k : ℤ))).length := by
      intro k
      by_cases hk : x.2 = (k : ℤ)
      · simp [List.filter_cons, hk]; omega
      · simp [List.filter_cons, hk]
    simp only [hsplit, Finset.sum_add_distrib, ih hxs, List.length_cons, hk0]
    have heq : ∀ k ∈ Finset.range R,
        (if (k0 : ℤ) = (k : ℤ) then 1 else 0)
          = (if k = k0 then 1 else 0) := by
      intro k _
      by_cases h : k = k0
      · simp [h]
      · have hc : (k0 : ℤ) ≠ (k : ℤ) := by exact_mod_cast Ne.symm h
        simp [h, hc]
    have hsum : (∑ k ∈ Finset.range R,
        if (k0 : ℤ) = (k : ℤ) then 1 else 0) = 1 := by
      rw [Finset.sum_congr rfl heq]
      simp [Finset.sum_ite_eq', hk0R]
    rw [hsum]
    omega

/-- Unfolding `compute_jackknife_mean` on inputs passing all
validation: the result is `ok` with the values computed on
lines 152-169 of the source. -/
lemma compute_jackknife_mean_ok_branch (values : List ℚ)
    (a : JackknifeAssignment)
    (hlen : a.region_ids.length = values.length)
    (hR2 : 2 ≤ a.n_regions)
    (hne : ∀ k : ℕ, k < a.n_regions.toNat →
      subsample (values.zip a.region_ids) (k : ℤ) ≠ []) :
    compute_jackknife_mean values a =
      .ok ⟨meanQ values, meanQ (jackknife_theta_k values a),
        jackknife_variance (jackknife_theta_k values a) a.n_regions.toNat⟩ := by
  simp only [compute_jackknife_mean]
  rw [if_neg (by simp [hlen]), if_neg (by omega), if_pos]
  simp only [List.all_eq_true, List.mem_range, Bool.not_eq_true',
    List.isEmpty_eq_false]
  intro k hk
  exact hne k hk

/-- Unfolding `compute_jackknife_mean` on inputs passing the length and
`R ≥ 2` validation: the result is an error exactly when some
leave-one-region-out subsample is empty (the `raise` on line 158). -/
lemma compute_jackknife_mean_error_iff (values : List ℚ)
    (a : JackknifeAssignment)
    (hlen : a.region_ids.length = values.length)
    (hR2 : 2 ≤ a.n_regions) :
    (∃ msg, compute_jackknife_mean values a = .error msg) ↔
      ∃ k : ℕ, k < a.n_regions.toNat ∧
        subsample (values.zip a.region_ids) (k : ℤ) = [] := by
  simp only [compute_jackknife_mean]
  rw [if_neg (by simp [hlen]), if_neg (by omega)]
  by_cases hall : (List.range a.n_regions.toNat).all
      (fun k => !(subsample (values.zip a.region_ids) (k : ℤ)).isEmpty) = true
  · rw [if_pos hall]
    simp only [List.all_eq_true, List.mem_range, Bool.not_eq_true',
      List.isEmpty_eq_false] at hall
    constructor
    · rintro ⟨msg, hmsg⟩
      exact absurd hmsg (by simp)
    · rintro ⟨k, hk, hempty⟩
      exact absurd hempty (hall k hk)
  · rw [if_neg hall]
    simp only [List.all_eq_true, List.mem_range, Bool.not_eq_true',
      List.isEmpty_eq_false] at hall
    push_neg at hall
    obtain ⟨k, hk, hempty⟩ := hall
    constructor
    · intro _
      exact ⟨k, hk, by simpa using hempty⟩
    · intro _
      exact ⟨"region is empty; cannot form jackknife sample", rfl⟩

/-- Claim C1 (amended): for a 1-D values array and an assignment with
`R ≥ 2` regions in which every region id lies in `[0, R)` and every
region holds the same number `m ≥ 1` of points, `compute_jackknife_mean`
succeeds and the returned `theta_jackknife` (the mean of the `R`
leave-one-region-out means) equals `theta_full` (the mean of all
values) exactly. -/
theorem compute_jackknife_mean_identity_equal_regions
    (values : List ℚ) (a : JackknifeAssignment) (m : ℕ)
    (hlen : a.region_ids.length = values.length)
    (hR2 : 2 ≤ a.n_regions)
    (hm : 1 ≤ m)
    (hin : ∀ i ∈ a.region_ids, 0 ≤ i ∧ i < a.n_regions)
    (hcount : ∀ k : ℕ, k < a.n_regions.toNat →
        ((values.zip a.region_ids).filter
          (fun pr => pr.2 == (k : ℤ))).length = m) :
    ∃ s : JackknifeStats, compute_jackknife_mean values a = .ok s ∧
      s.theta_jackknife = s.theta_full := by
  set L := values.zip a.region_ids with hL
  set R := a.n_regions.toNat with hRdef
  have hR2' : 2 ≤ R := by omega
  have hfst : L.map Prod.fst = values :=
    List.map_fst_zip values a.region_ids (le_of_eq hlen.symm)
  have hin' : ∀ pr ∈ L, ∃ k0 : ℕ, k0 < R ∧ pr.2 = (k0 : ℤ) := by
    rintro ⟨v, i⟩ hpr
    have hmem : i ∈ a.region_ids := (List.of_mem_zip hpr).2
    obtain ⟨h0, hlt⟩ := hin i hmem
    exact ⟨i.toNat, by omega, by omega⟩
  have hLlen : L.length = values.length := by
    rw [hL, List.length_zip, hlen, min_self]
  have hNRm : values.length = R * m := by
    have hpc := partition_count L R hin'
    rw [Finset.sum_congr rfl
      (fun k hk => hcount k (Finset.mem_range.mp hk))] at hpc
    simp only [Finset.sum_const, Finset.card_range, smul_eq_mul] at hpc
    omega
  have hsublen : ∀ k : ℕ, k < R →
      (subsample L (k : ℤ)).length + m = values.length := by
    intro k hk
    have h := subsample_length L (k : ℤ)
    rw [hcount k hk] at h
    omega
  have hne : ∀ k : ℕ, k < R → subsample L (k : ℤ) ≠ [] := by
    intro k hk hnil
    have h1 := hsublen k hk
    rw [hnil] at h1
    simp only [List.length_nil, Nat.zero_add] at h1
    have h2m : 2 * m ≤ R * m := Nat.mul_le_mul_right m hR2'
    omega
  have hNq : (values.length : ℚ) = (R : ℚ) * m := by exact_mod_cast hNRm
  have hSk := partition_sum L R Prod.fst hin'
  rw [hfst] at hSk
  have htheta : ∀ k : ℕ, k < R → meanQ (subsample L (k : ℤ)) =
      (values.sum
          - ((L.filter (fun pr => pr.2 == (k : ℤ))).map Prod.fst).sum)
        / ((values.length : ℚ) - m) := by
    intro k hk
    have hsum := subsample_sum L (k : ℤ)
    rw [hfst] at hsum
    have hlenq : ((subsample L (k : ℤ)).length : ℚ)
        = (values.length : ℚ) - m := by
      have h := congrArg (fun n : ℕ => (n : ℚ)) (hsublen k hk)
      push_cast at h
      linarith
    rw [meanQ, hsum, hlenq]
  have hthetasum : (jackknife_theta_k values a).sum
      = ((R : ℚ) * values.sum - values.sum)
        / ((values.length : ℚ) - m) := by
    rw [jackknife_theta_k, list_range_map_sum]
    rw [Finset.sum_congr rfl
      (fun k hk => htheta k (Finset.mem_range.mp hk))]
    rw [← Finset.sum_div]
    congr 1
    rw [Finset.sum_sub_distrib, hSk, Finset.sum_const, Finset.card_range,
      nsmul_eq_mul]
  have hthetalen : (jackknife_theta_k values a).length = R := by
    simp [jackknife_theta_k]
  have hmq : (1 : ℚ) ≤ (m : ℚ) := by exact_mod_cast hm
  have hrq : (2 : ℚ) ≤ (R : ℚ) := by exact_mod_cast hR2'
  have hm0 : (m : ℚ) ≠ 0 := by linarith
  have hr0 : (R : ℚ) ≠ 0 := by linarith
  have hr1 : (R : ℚ) - 1 ≠ 0 := by linarith
  refine ⟨_, compute_jackknife_mean_ok_branch values a hlen hR2 hne, ?_⟩
  show meanQ (jackknife_theta_k values a) = meanQ values
  rw [meanQ, meanQ, hthetasum, hthetalen, hNq]
  have hd : (R : ℚ) * m - m = ((R : ℚ) - 1) * m := by ring
  rw [hd]
  field_simp
  ring

/-- Claim C1 witness: concrete equal-sized partition (the scenario of
`test_compute_jackknife_mean_reproduces_mean_for_linear_estimator`),
values `[1,2,3,4]` with regions `[0,0,1,1]` and `R = 2`, each region
holding `m = 2` points. -/
theorem compute_jackknife_mean_identity_equal_regions_witness :
    ∃ s : JackknifeStats,
      compute_jackknife_mean [1, 2, 3, 4] ⟨[0, 0, 1, 1], 2⟩ = .ok s ∧
        s.theta_jackknife = s.theta_full :=
  compute_jackknife_mean_identity_equal_regions
    [1, 2, 3, 4] ⟨[0, 0, 1, 1], 2⟩ 2
    (by decide) (by decide) (by decide) (by decide) (by decide)

/-- Claim C1 counterexample: with values `[1,1,4]` and regions
`[0,0,1]` (both regions of `[0,2)` non-empty but of different sizes),
`compute_jackknife_mean` accepts the input and returns
`theta_full = 2` but `theta_jackknife = 5/2`, so the identity fails
for region partitions of general (unequal) size. -/
theorem compute_jackknife_mean_identity_counterexample :
    compute_jackknife_mean [1, 1, 4] ⟨[0, 0, 1], 2⟩
        = .ok ⟨2, 5 / 2, 9 / 4⟩
      ∧ (5 / 2 : ℚ) ≠ (2 : ℚ) := by
  constructor
  · have hs0 : subsample [((1 : ℚ), (0 : ℤ)), (1, 0), (4, 1)] 0 = [4] := by
      decide
    have hs1 : subsample [((1 : ℚ), (0 : ℤ)), (1, 0), (4, 1)] 1 = [1, 1] := by
      decide
    have ht : (2 : ℤ).toNat = 2 := rfl
    have h1 : jackknife_theta_k [1, 1, 4] ⟨[0, 0, 1], 2⟩ = [4, 1] := by
      norm_num [jackknife_theta_k, ht, List.range_succ, hs0, hs1, meanQ]
    rw [compute_jackknife_mean_ok_branch _ _ (by decide) (by decide)
      (by decide), h1]
    norm_num [jackknife_variance, meanQ, ht]
  · norm_num

/-- Claim C2 (amended): under the length and `R ≥ 2` validation,
`compute_jackknife_mean` fails fatally exactly when some region `k` in
`[0, R)` has zero remaining members after exclusion; in particular a
region `k0` that contains all the data triggers this failure.  (An
empty region id in `[0, R)` that was never assigned any point does
*not* trigger it when at least one point exists: after excluding it,
all `N` points remain.) -/
theorem compute_jackknife_mean_fatal_iff
    (values : List ℚ) (a : JackknifeAssignment)
    (hlen : a.region_ids.length = values.length)
    (hR2 : 2 ≤ a.n_regions) :
    ((∃ msg, compute_jackknife_mean values a = .error msg) ↔
      ∃ k : ℕ, k < a.n_regions.toNat ∧
        subsample (values.zip a.region_ids) (k : ℤ) = []) ∧
    (∀ k0 : ℕ, k0 < a.n_regions.toNat →
      (∀ pr ∈ values.zip a.region_ids, pr.2 = (k0 : ℤ)) →
      ∃ msg, compute_jackknife_mean values a = .error msg) := by
  refine ⟨compute_jackknife_mean_error_iff values a hlen hR2, ?_⟩
  intro k0 hk0 hall
  refine (compute_jackknife_mean_error_iff values a hlen hR2).mpr
    ⟨k0, hk0, ?_⟩
  rw [subsample, List.map_eq_nil_iff, List.filter_eq_nil_iff]
  intro pr hpr
  simp [hall pr hpr]

/-- Claim C2 witness: values `[1,2]` all assigned to region `0` of
`R = 2` regions; region `0` contains all the data and the call fails. -/
theorem compute_jackknife_mean_fatal_iff_witness :
    ∃ msg, compute_jackknife_mean [1, 2] ⟨[0, 0], 2⟩ = .error msg :=
  (compute_jackknife_mean_fatal_iff [1, 2] ⟨[0, 0], 2⟩
      (by decide) (by decide)).2 0 (by decide) (by decide)

/-- Claim C2 counterexample: region id `2` of `n_regions = 3` was never
assigned any point (ids are `[0,1]`), yet `compute_jackknife_mean`
returns a result instead of failing — excluding the empty region
leaves both points in the subsample. -/
theorem compute_jackknife_mean_empty_region_counterexample :
    (∀ i ∈ ([0, 1] : List ℤ), i ≠ 2) ∧
    compute_jackknife_mean [1, 2] ⟨[0, 1], 3⟩
      = .ok ⟨3 / 2, 3 / 2, 1 / 3⟩ := by
  constructor
  · decide
  · have hs0 : subsample [((1 : ℚ), (0 : ℤ)), (2, 1)] 0 = [2] := by decide
    have hs1 : subsample [((1 : ℚ), (0 : ℤ)), (2, 1)] 1 = [1] := by decide
    have hs2 : subsample [((1 : ℚ), (0 : ℤ)), (2, 1)] 2 = [1, 2] := by decide
    have ht : (3 : ℤ).toNat = 3 := rfl
    have h1 : jackknife_theta_k [1, 2] ⟨[0, 1], 3⟩ = [2, 1, 3 / 2] := by
      norm_num [jackknife_theta_k, ht, List.range_succ, hs0, hs1, hs2, meanQ]
    rw [compute_jackknife_mean_ok_branch _ _ (by decide) (by decide)
      (by decide), h1]
    norm_num [jackknife_variance, meanQ, ht]

/-- Claim C8: whenever `compute_jackknife_mean` returns a result, the
returned `variance` is nonnegative and `stderr` is the square root of
the variance. -/
theorem compute_jackknife_mean_variance_nonneg
    (values : List ℚ) (a : JackknifeAssignment) (s : JackknifeStats)
    (h : compute_jackknife_mean values a = .ok s) :
    0 ≤ s.variance ∧ jackknife_stderr s = Real.sqrt s.variance := by
  refine ⟨?_, rfl⟩
  simp only [compute_jackknife_mean] at h
  by_cases h1 : a.region_ids.length ≠ values.length
  · rw [if_pos h1] at h
    exact absurd h (by simp)
  rw [if_neg h1] at h
  by_cases h2 : a.n_regions ≤ 1
  · rw [if_pos h2] at h
    exact absurd h (by simp)
  rw [if_neg h2] at h
  by_cases h3 : (List.range a.n_regions.toNat).all
      (fun k : ℕ =>
        !(subsample (values.zip a.region_ids) (k : ℤ)).isEmpty) = true
  · rw [if_pos h3] at h
    have hs : s = ⟨meanQ values, meanQ (jackknife_theta_k values a),
        jackknife_variance (jackknife_theta_k values a)
          a.n_regions.toNat⟩ := by
      cases h
      rfl
    rw [hs]
    show 0 ≤ jackknife_variance (jackknife_theta_k values a)
      a.n_regions.toNat
    rw [jackknife_variance]
    apply mul_nonneg
    · apply div_nonneg
      · have hR : 2 ≤ a.n_regions.toNat := by omega
        have hRq : (2 : ℚ) ≤ (a.n_regions.toNat : ℚ) := by exact_mod_cast hR
        linarith
      · positivity
    · apply List.sum_nonneg
      intro x hx
      simp only [List.mem_map] at hx
      obtain ⟨t, _, rfl⟩ := hx
      positivity
  · rw [if_neg h3] at h
    exact absurd h (by simp)

/-- Evaluation of the model on the concrete call of the repository's
test `test_compute_jackknife_mean_reproduces_mean_for_linear_estimator`:
values `[1,2,3,4]` with regions `[0,0,1,1]`, `R = 2`. -/
lemma compute_jackknife_mean_test_eval :
    compute_jackknife_mean [1, 2, 3, 4] ⟨[0, 0, 1, 1], 2⟩
      = .ok ⟨5 / 2, 5 / 2, 1⟩ := by
  have hs0 : subsample [((1 : ℚ), (0 : ℤ)), (2, 0), (3, 1), (4, 1)] 0
      = [3, 4] := by decide
  have hs1 : subsample [((1 : ℚ), (0 : ℤ)), (2, 0), (3, 1), (4, 1)] 1
      = [1, 2] := by decide
  have ht : (2 : ℤ).toNat = 2 := rfl
  have h1 : jackknife_theta_k [1, 2, 3, 4] ⟨[0, 0, 1, 1], 2⟩
      = [7 / 2, 3 / 2] := by
    norm_num [jackknife_theta_k, ht, List.range_succ, hs0, hs1, meanQ]
  rw [compute_jackknife_mean_ok_branch _ _ (by decide) (by decide)
    (by decide), h1]
  norm_num [jackknife_variance, meanQ, ht]

/-- Claim C8 witness: the concrete call of the repository's test,
values `[1,2,3,4]` with regions `[0,0,1,1]`, `R = 2`, which returns
`variance = 1`. -/
theorem compute_jackknife_mean_variance_nonneg_witness :
    0 ≤ (⟨5 / 2, 5 / 2, 1⟩ : JackknifeStats).variance ∧
      jackknife_stderr ⟨5 / 2, 5 / 2, 1⟩
        = Real.sqrt (⟨5 / 2, 5 / 2, 1⟩ : JackknifeStats).variance :=
  compute_jackknife_mean_variance_nonneg
    [1, 2, 3, 4] ⟨[0, 0, 1, 1], 2⟩ ⟨5 / 2, 5 / 2, 1⟩
    compute_jackknife_mean_test_eval

/-- The mean of a constant list is that constant. -/
lemma meanQ_replicate (n : ℕ) (c : ℚ) (hn : n ≠ 0) :
    meanQ (List.replicate n c) = c := by
  rw [meanQ, List.sum_replicate, List.length_replicate, nsmul_eq_mul,
    mul_comm, mul_div_assoc, div_self (Nat.cast_ne_zero.mpr hn), mul_one]

/-- Claim C9: `compute_jackknife_mean` performs no range validation on
region ids.  A point whose region id lies outside `[0, n_regions)` is
a member of every one of the `R` leave-one-region-out subsamples, and
if *all* region ids lie outside `[0, n_regions)` (and there is at
least one point) every subsample equals the full value list, so the
call succeeds with `theta_jackknife = theta_full` and `variance = 0`
rather than raising. -/
theorem compute_jackknife_mean_no_range_validation
    (values : List ℚ) (a : JackknifeAssignment)
    (hlen : a.region_ids.length = values.length)
    (hR2 : 2 ≤ a.n_regions) :
    (∀ pr ∈ values.zip a.region_ids,
        (pr.2 < 0 ∨ a.n_regions ≤ pr.2) →
        ∀ k : ℕ, k < a.n_regions.toNat →
          pr.1 ∈ subsample (values.zip a.region_ids) (k : ℤ)) ∧
    ((∀ i ∈ a.region_ids, i < 0 ∨ a.n_regions ≤ i) → values ≠ [] →
      (∀ k : ℕ, k < a.n_regions.toNat →
        subsample (values.zip a.region_ids) (k : ℤ) = values) ∧
      compute_jackknife_mean values a
        = .ok ⟨meanQ values, meanQ values, 0⟩) := by
  have hfst : (values.zip a.region_ids).map Prod.fst = values :=
    List.map_fst_zip values a.region_ids (le_of_eq hlen.symm)
  constructor
  · intro pr hpr hout k hk
    have hne : pr.2 ≠ (k : ℤ) := by
      rcases hout with h | h <;> omega
    rw [subsample]
    apply List.mem_map.mpr
    refine ⟨pr, List.mem_filter.mpr ⟨hpr, ?_⟩, rfl⟩
    simpa using hne
  · intro hout hvne
    have hsub : ∀ k : ℕ, k < a.n_regions.toNat →
        subsample (values.zip a.region_ids) (k : ℤ) = values := by
      intro k hk
      rw [subsample, List.filter_eq_self.mpr, hfst]
      intro pr hpr
      have hmem : pr.2 ∈ a.region_ids := (List.of_mem_zip hpr).2
      have := hout pr.2 hmem
      simp only [bne_iff_ne, ne_eq]
      omega
    refine ⟨hsub, ?_⟩
    have hne : ∀ k : ℕ, k < a.n_regions.toNat →
        subsample (values.zip a.region_ids) (k : ℤ) ≠ [] := by
      intro k hk
      rw [hsub k hk]
      exact hvne
    rw [compute_jackknife_mean_ok_branch values a hlen hR2 hne]
    have hR0 : a.n_regions.toNat ≠ 0 := by omega
    have htk : jackknife_theta_k values a
        = List.replicate a.n_regions.toNat (meanQ values) := by
      rw [jackknife_theta_k]
      rw [List.map_congr_left (fun k hk =>
        congrArg meanQ (hsub k (List.mem_range.mp hk)))]
      simp [List.map_const]
    have hbar : meanQ (jackknife_theta_k values a) = meanQ values := by
      rw [htk, meanQ_replicate _ _ hR0]
    have hvar : jackknife_variance (jackknife_theta_k values a)
        a.n_regions.toNat = 0 := by
      rw [jackknife_variance, htk, meanQ_replicate _ _ hR0]
      simp
    rw [hbar, hvar]

/-- Claim C9 witness: values `[1,2]` with region ids `[5,7]`, both
outside `[0,2)`; the call succeeds with `variance = 0` instead of
raising. -/
theorem compute_jackknife_mean_no_range_validation_witness :
    ((5 : ℤ) ∈ ([5, 7] : List ℤ) → True) ∧
    compute_jackknife_mean [1, 2] ⟨[5, 7], 2⟩
      = .ok ⟨meanQ [1, 2], meanQ [1, 2], 0⟩ :=
  ⟨fun _ => trivial,
    ((compute_jackknife_mean_no_range_validation [1, 2] ⟨[5, 7], 2⟩
      (by decide) (by decide)).2 (by decide) (by decide)).2⟩

/-! ### Geometry lemmas -/

/-- `Real.sqrt` is strictly monotone on nonnegative rationals, so
comparing the source's distances is the same as comparing the model's
squared distances. -/
lemma sqrt_lt_sqrt_iff_of_nonneg (a b : ℚ) (ha : 0 ≤ a) (_hb : 0 ≤ b) :
    Real.sqrt a < Real.sqrt b ↔ a < b := by
  constructor
  · intro h
    by_contra hab
    push_neg at hab
    exact absurd (Real.sqrt_le_sqrt (by exact_mod_cast hab)) (not_le.mpr h)
  · intro h
    exact Real.sqrt_lt_sqrt (by exact_mod_cast ha) (by exact_mod_cast h)

/-- Squared norms are nonnegative. -/
lemma Vec3.norm2_nonneg (a : Vec3) : 0 ≤ a.norm2 := by
  rw [Vec3.norm2, Vec3.dot]
  nlinarith [mul_self_nonneg a.x, mul_self_nonneg a.y, mul_self_nonneg a.z]

/-- The dot product of a vector with itself vanishes only on the zero
vector (`ab2 == 0.0` on `geometry.py` line 108 is exactly the
degenerate-segment test). -/
lemma dot_self_eq_zero_iff (v : Vec3) : v.dot v = 0 ↔ v = ⟨0, 0, 0⟩ := by
  constructor
  · intro h
    rw [Vec3.dot] at h
    have hx : v.x * v.x = 0 := by
      nlinarith [mul_self_nonneg v.x, mul_self_nonneg v.y, mul_self_nonneg v.z]
    have hy : v.y * v.y = 0 := by
      nlinarith [mul_self_nonneg v.x, mul_self_nonneg v.y, mul_self_nonneg v.z]
    have hz : v.z * v.z = 0 := by
      nlinarith [mul_self_nonneg v.x, mul_self_nonneg v.y, mul_self_nonneg v.z]
    cases v
    simp_all [mul_self_eq_zero]
  · rintro rfl
    rw [Vec3.dot]
    ring

/-- The squared distance returned by the segment routine is
nonnegative. -/
lemma project_point_onto_segment_dist2_nonneg (p a b : Vec3) :
    0 ≤ (project_point_onto_segment p a b).dist2 := by
  rw [project_point_onto_segment]
  split
  · exact Vec3.norm2_nonneg _
  · exact Vec3.norm2_nonneg _

/-- Structural facts about every segment-projection result: `t` is
clamped to `[0, 1]`, the closest point is `start + t * (end - start)`,
and the stored squared distance is the squared norm of
`point - closest`. -/
lemma project_point_onto_segment_props (p a b : Vec3) :
    0 ≤ (project_point_onto_segment p a b).t ∧
    (project_point_onto_segment p a b).t ≤ 1 ∧
    (project_point_onto_segment p a b).closest
      = a.add (Vec3.smul (project_point_onto_segment p a b).t (b.sub a)) ∧
    (project_point_onto_segment p a b).dist2
      = (p.sub (project_point_onto_segment p a b).closest).norm2 := by
  rw [project_point_onto_segment]
  by_cases h : (b.sub a).dot (b.sub a) = 0
  · simp only [if_pos h]
    refine ⟨le_refl 0, by norm_num, ?_, trivial⟩
    cases a
    simp [Vec3.add, Vec3.smul]
  · simp only [if_neg h]
    exact ⟨le_max_left _ _, max_le (by norm_num) (min_le_left _ _),
      trivial, trivial⟩

/-- The candidate of segment `i` records `i` as its index. -/
lemma segCand_segIndex (p : Vec3) (v : List Vec3) (i : ℕ) :
    (segCand p v i).segIndex = i := rfl

/-- The scan over the first `n ≥ 1` segments returns the candidate of
minimum squared distance, and on ties the candidate of lowest index
(strictly-less-than updates, `geometry.py` line 157). -/
lemma scan_range_spec (p : Vec3) (v : List Vec3) (n : ℕ) (hn : 1 ≤ n) :
    ∃ c : Cand,
      (List.range n).foldl (fun acc i => updateBest acc (segCand p v i))
          none = some c ∧
      c.segIndex < n ∧
      c = segCand p v c.segIndex ∧
      (∀ i, i < n → c.dist2 ≤ (segCand p v i).dist2) ∧
      (∀ i, i < c.segIndex → c.dist2 < (segCand p v i).dist2) := by
  induction n with
  | zero => omega
  | succ n ih =>
    by_cases hn1 : 1 ≤ n
    · obtain ⟨c, hc, hidx, hcand, hmin, hstrict⟩ := ih hn1
      rw [List.range_succ, List.foldl_append, hc]
      by_cases hlt : (segCand p v n).dist2 < c.dist2
      · refine ⟨segCand p v n, by simp [updateBest, hlt],
          by rw [segCand_segIndex]; omega, rfl, ?_, ?_⟩
        · intro i hi
          by_cases hin : i < n
          · exact le_of_lt (lt_of_lt_of_le hlt (hmin i hin))
          · have : i = n := by omega
            subst this
            exact le_refl _
        · intro i hi
          rw [segCand_segIndex] at hi
          exact lt_of_lt_of_le hlt (hmin i hi)
      · refine ⟨c, by simp [updateBest, hlt], by omega, hcand, ?_, hstrict⟩
        intro i hi
        by_cases hin : i < n
        · exact hmin i hin
        · have : i = n := by omega
          subst this
          exact le_of_not_lt hlt
    · have hn0 : n = 0 := by omega
      subst hn0
      refine ⟨segCand p v 0, by simp [List.range_succ, updateBest],
        by rw [segCand_segIndex]; omega, rfl, ?_, ?_⟩
      · intro i hi
        have : i = 0 := by omega
        subst this
        exact le_refl _
      · intro i hi
        rw [segCand_segIndex] at hi
        omega

/-- Claim C4: the segment projection contract.  A degenerate segment
(`end - start` the zero vector) is handled as a legal edge case
returning `(‖point - start‖, start, 0)`; otherwise the closest point is
`start + t_clamped * (end - start)` with `t_clamped` the raw projection
parameter clamped to `[0, 1]` and the distance is
`‖point - closest_point‖`; consequently a point whose raw parameter
falls beyond an endpoint projects exactly onto that endpoint. -/
theorem project_point_onto_segment_contract (p a b : Vec3) :
    (b.sub a = ⟨0, 0, 0⟩ →
      project_point_onto_segment p a b = ⟨(p.sub a).norm2, a, 0⟩ ∧
      Real.sqrt (project_point_onto_segment p a b).dist2
        = (p.sub a).norm) ∧
    (b.sub a ≠ ⟨0, 0, 0⟩ →
      (project_point_onto_segment p a b).t
          = max 0 (min 1 ((p.sub a).dot (b.sub a) / (b.sub a).dot (b.sub a)))
        ∧ (project_point_onto_segment p a b).closest
          = a.add (Vec3.smul (project_point_onto_segment p a b).t (b.sub a))
        ∧ Real.sqrt (project_point_onto_segment p a b).dist2
          = (p.sub (project_point_onto_segment p a b).closest).norm) ∧
    (b.sub a ≠ ⟨0, 0, 0⟩ →
      1 ≤ (p.sub a).dot (b.sub a) / (b.sub a).dot (b.sub a) →
      (project_point_onto_segment p a b).closest = b) ∧
    ((p.sub a).dot (b.sub a) / (b.sub a).dot (b.sub a) ≤ 0 →
      (project_point_onto_segment p a b).closest = a) := by
  by_cases h : (b.sub a).dot (b.sub a) = 0
  · have hzero : b.sub a = ⟨0, 0, 0⟩ := (dot_self_eq_zero_iff _).mp h
    refine ⟨fun _ => ?_, fun hne => absurd hzero hne,
      fun hne => absurd hzero hne, fun _ => ?_⟩
    · rw [project_point_onto_segment]
      simp only [if_pos h]
      exact ⟨trivial, rfl⟩
    · rw [project_point_onto_segment]
      simp only [if_pos h]
  · refine ⟨fun heq => absurd ((dot_self_eq_zero_iff _).mpr heq) h,
      fun _ => ?_, fun _ ht => ?_, fun ht => ?_⟩
    · rw [project_point_onto_segment]
      simp only [if_neg h]
      exact ⟨trivial, trivial, rfl⟩
    · rw [project_point_onto_segment]
      simp only [if_neg h]
      have h1 : min 1 ((p.sub a).dot (b.sub a) / (b.sub a).dot (b.sub a))
          = 1 := min_eq_left ht
      rw [h1, max_eq_right (zero_le_one)]
      cases a
      cases b
      simp only [Vec3.add, Vec3.smul, Vec3.sub, Vec3.mk.injEq]
      refine ⟨by ring, by ring, by ring⟩
    · rw [project_point_onto_segment]
      simp only [if_neg h]
      have h1 : min 1 ((p.sub a).dot (b.sub a) / (b.sub a).dot (b.sub a))
          = (p.sub a).dot (b.sub a) / (b.sub a).dot (b.sub a) :=
        min_eq_right (le_trans ht zero_le_one)
      rw [h1, max_eq_left ht]
      cases a
      simp [Vec3.add, Vec3.smul]

/-- Claim C4 witness: the point `(2,0,0)` beyond the endpoint
`(1,0,0)` of the segment from the origin projects exactly onto that
endpoint. -/
theorem project_point_onto_segment_contract_witness :
    (project_point_onto_segment ⟨2, 0, 0⟩ ⟨0, 0, 0⟩ ⟨1, 0, 0⟩).closest
      = ⟨1, 0, 0⟩ :=
  (project_point_onto_segment_contract ⟨2, 0, 0⟩ ⟨0, 0, 0⟩ ⟨1, 0, 0⟩).2.2.1
    (by simp [Vec3.sub, Vec3.mk.injEq])
    (by norm_num [Vec3.dot, Vec3.sub])

/-- Claim C3: for every point and polyline of `N ≥ 2` vertices the
returned result is the candidate of globally minimum distance over the
`N-1` segments; every segment of lower index than the winner is at
*strictly* greater distance (the strictly-less-than scan makes the
earliest segment win exact ties); and `s_along` is the cumulative
arc-length at the winning segment's start plus `t` times that
segment's own length. -/
theorem project_point_onto_polyline_min (p : Vec3) (v : List Vec3)
    (hv : 2 ≤ v.length) :
    ∃ r : ProjectionResult, project_point_onto_polyline p v = .ok r ∧
      r.segment_index < v.length - 1 ∧
      r.distance = segDistance p v r.segment_index ∧
      r.closest_point = (segCand p v r.segment_index).point ∧
      r.t = (segCand p v r.segment_index).t ∧
      (∀ i, i < v.length - 1 → r.distance ≤ segDistance p v i) ∧
      (∀ i, i < r.segment_index → r.distance < segDistance p v i) ∧
      r.s_along = arc_length_at v r.segment_index
        + r.t * seg_length v r.segment_index := by
  obtain ⟨c, hsc, hidx, hcand, hmin, hstrict⟩ :=
    scan_range_spec p v (v.length - 1) (by omega)
  have hscan : scanSegments p v = some c := hsc
  have h0 : 0 ≤ c.dist2 := by
    rw [hcand]
    exact project_point_onto_segment_dist2_nonneg _ _ _
  refine ⟨⟨Real.sqrt c.dist2, c.point, c.segIndex, c.t,
      arc_length_at v c.segIndex + c.t * seg_length v c.segIndex⟩,
    ?_, hidx, ?_, ?_, ?_, ?_, ?_, rfl⟩
  · rw [project_point_onto_polyline]
    rw [if_neg (by omega), hscan]
  · show Real.sqrt c.dist2 = Real.sqrt (segCand p v c.segIndex).dist2
    rw [← hcand]
  · show c.point = (segCand p v c.segIndex).point
    rw [← hcand]
  · show c.t = (segCand p v c.segIndex).t
    rw [← hcand]
  · intro i hi
    exact Real.sqrt_le_sqrt (by exact_mod_cast hmin i hi)
  · intro i hi
    exact Real.sqrt_lt_sqrt (by exact_mod_cast h0)
      (by exact_mod_cast hstrict i hi)

/-- Claim C3 witness: the concrete scenario of the spec, point
`(5,1,0)` against the polyline `[(0,0,0), (10,0,0)]`. -/
theorem project_point_onto_polyline_min_witness :
    ∃ r : ProjectionResult,
      project_point_onto_polyline ⟨5, 1, 0⟩ [⟨0, 0, 0⟩, ⟨10, 0, 0⟩]
          = .ok r ∧
      r.segment_index < 1 ∧
      r.distance = segDistance ⟨5, 1, 0⟩ [⟨0, 0, 0⟩, ⟨10, 0, 0⟩]
        r.segment_index ∧
      r.closest_point
        = (segCand ⟨5, 1, 0⟩ [⟨0, 0, 0⟩, ⟨10, 0, 0⟩] r.segment_index).point ∧
      r.t = (segCand ⟨5, 1, 0⟩ [⟨0, 0, 0⟩, ⟨10, 0, 0⟩] r.segment_index).t ∧
      (∀ i, i < 1 → r.distance
        ≤ segDistance ⟨5, 1, 0⟩ [⟨0, 0, 0⟩, ⟨10, 0, 0⟩] i) ∧
      (∀ i, i < r.segment_index → r.distance
        < segDistance ⟨5, 1, 0⟩ [⟨0, 0, 0⟩, ⟨10, 0, 0⟩] i) ∧
      r.s_along = arc_length_at [⟨0, 0, 0⟩, ⟨10, 0, 0⟩] r.segment_index
        + r.t * seg_length [⟨0, 0, 0⟩, ⟨10, 0, 0⟩] r.segment_index :=
  project_point_onto_polyline_min ⟨5, 1, 0⟩ [⟨0, 0, 0⟩, ⟨10, 0, 0⟩]
    (by decide)

/-- Claim C6: every `ProjectionResult` of a valid polyline projection
satisfies the invariants: `distance ≥ 0`, `segment_index ∈ [0, N-2]`,
`t ∈ [0,1]`, the closest point is
`vertices[segment_index] + t * (vertices[segment_index+1] -
vertices[segment_index])` (so it lies on the polyline), the distance
is `‖point - closest_point‖`, and
`s_along = arc_lengths[segment_index] + t * segment_length`. -/
theorem project_point_onto_polyline_result_invariants (p : Vec3)
    (v : List Vec3) (hv : 2 ≤ v.length) :
    ∃ r : ProjectionResult, project_point_onto_polyline p v = .ok r ∧
      0 ≤ r.distance ∧
      r.segment_index ≤ v.length - 2 ∧
      0 ≤ r.t ∧ r.t ≤ 1 ∧
      r.closest_point = (v.getD r.segment_index default).add
        (Vec3.smul r.t ((v.getD (r.segment_index + 1) default).sub
          (v.getD r.segment_index default))) ∧
      r.distance = (p.sub r.closest_point).norm ∧
      r.s_along = arc_length_at v r.segment_index
        + r.t * seg_length v r.segment_index := by
  obtain ⟨c, hsc, hidx, hcand, _hmin, _hstrict⟩ :=
    scan_range_spec p v (v.length - 1) (by omega)
  have hscan : scanSegments p v = some c := hsc
  obtain ⟨ht0, ht1, hcl, hd2⟩ := project_point_onto_segment_props p
    (v.getD c.segIndex default) (v.getD (c.segIndex + 1) default)
  have hct : c.t = (project_point_onto_segment p (v.getD c.segIndex default)
      (v.getD (c.segIndex + 1) default)).t := by rw [hcand]; rfl
  have hcp : c.point = (project_point_onto_segment p
      (v.getD c.segIndex default) (v.getD (c.segIndex + 1) default)).closest := by
    rw [hcand]; rfl
  have hcd : c.dist2 = (project_point_onto_segment p
      (v.getD c.segIndex default) (v.getD (c.segIndex + 1) default)).dist2 := by
    rw [hcand]; rfl
  refine ⟨⟨Real.sqrt c.dist2, c.point, c.segIndex, c.t,
      arc_length_at v c.segIndex + c.t * seg_length v c.segIndex⟩,
    ?_, Real.sqrt_nonneg _, ?_, ?_, ?_, ?_, ?_, rfl⟩
  · rw [project_point_onto_polyline]
    rw [if_neg (by omega), hscan]
  · show c.segIndex ≤ v.length - 2
    omega
  · show 0 ≤ c.t
    rw [hct]
    exact ht0
  · show c.t ≤ 1
    rw [hct]
    exact ht1
  · show c.point = _
    rw [hcp, hct, hcl]
  · show Real.sqrt c.dist2 = (p.sub c.point).norm
    rw [hcd, hd2, hcp, Vec3.norm]

/-- Claim C6 witness: the spec's endpoint-clamp scenario, point
`(-1,0,0)` against the polyline `[(0,0,0), (10,0,0)]`. -/
theorem project_point_onto_polyline_result_invariants_witness :
    ∃ r : ProjectionResult,
      project_point_onto_polyline ⟨-1, 0, 0⟩ [⟨0, 0, 0⟩, ⟨10, 0, 0⟩]
          = .ok r ∧
      0 ≤ r.distance ∧
      r.segment_index ≤ 0 ∧
      0 ≤ r.t ∧ r.t ≤ 1 ∧
      r.closest_point
        = (([⟨0, 0, 0⟩, ⟨10, 0, 0⟩] : List Vec3).getD
            r.segment_index default).add
          (Vec3.smul r.t
            ((([⟨0, 0, 0⟩, ⟨10, 0, 0⟩] : List Vec3).getD
                (r.segment_index + 1) default).sub
              (([⟨0, 0, 0⟩, ⟨10, 0, 0⟩] : List Vec3).getD
                r.segment_index default))) ∧
      r.distance = (Vec3.sub ⟨-1, 0, 0⟩ r.closest_point).norm ∧
      r.s_along = arc_length_at [⟨0, 0, 0⟩, ⟨10, 0, 0⟩] r.segment_index
        + r.t * seg_length [⟨0, 0, 0⟩, ⟨10, 0, 0⟩] r.segment_index :=
  project_point_onto_polyline_result_invariants ⟨-1, 0, 0⟩
    [⟨0, 0, 0⟩, ⟨10, 0, 0⟩] (by decide)

/-- Indexing the cumulative arc-length array. -/
lemma getD_map_range (f : ℕ → ℝ) (N i : ℕ) (hi : i < N) :
    ((List.range N).map f).getD i 0 = f i := by
  rw [List.getD_eq_getElem?_getD, List.getElem?_map, List.getElem?_range hi]
  rfl

/-- The last entry of a nonempty mapped range. -/
lemma getLastD_map_range (f : ℕ → ℝ) (N : ℕ) (hN : N ≠ 0) :
    ((List.range N).map f).getLastD 0 = f (N - 1) := by
  cases N with
  | zero => exact absurd rfl hN
  | succ n =>
    rw [List.range_succ, List.map_append]
    simp

/-- Segment lengths are nonnegative. -/
lemma seg_length_nonneg (v : List Vec3) (j : ℕ) : 0 ≤ seg_length v j :=
  Real.sqrt_nonneg _

/-- Cumulative arc lengths are monotone. -/
lemma arc_length_at_mono (v : List Vec3) (i j : ℕ) (hij : i ≤ j) :
    arc_length_at v i ≤ arc_length_at v j := by
  rw [arc_length_at, arc_length_at]
  apply Finset.sum_le_sum_of_subset_of_nonneg
  · exact Finset.range_subset.mpr hij
  · intro k _ _
    exact seg_length_nonneg v k

/-- Claim C5: for a valid `N × 3` vertex array with `N ≥ 1`,
`compute_arc_lengths` returns an `N`-element array whose first element
is `0`, whose element `i` is the sum of the Euclidean segment lengths
of segments `0, …, i-1` (hence the array is monotonically
non-decreasing); a single-vertex input yields `[0.0]`; the empty input
and any wrongly-sized row fail; and `Filament.length` is the last
element of this array. -/
theorem compute_arc_lengths_spec (rows : List (List ℚ))
    (hne : rows ≠ []) (h3 : ∀ r ∈ rows, r.length = 3) :
    ∃ arc : List ℝ, compute_arc_lengths rows = .ok arc ∧
      arc.length = rows.length ∧
      arc.getD 0 0 = 0 ∧
      (∀ i, i < rows.length →
        arc.getD i 0
          = ∑ j ∈ Finset.range i, seg_length (rows.map toVec3) j) ∧
      (∀ i j, i ≤ j → j < rows.length → arc.getD i 0 ≤ arc.getD j 0) ∧
      (∀ f, Filament.from_vertices rows = .ok f →
        f.length = arc.getD (rows.length - 1) 0) ∧
      (∃ msg, compute_arc_lengths ([] : List (List ℚ)) = .error msg) ∧
      (∀ rows2 : List (List ℚ), (∃ r ∈ rows2, r.length ≠ 3) →
        ∃ msg, compute_arc_lengths rows2 = .error msg) ∧
      (∀ row : List ℚ, row.length = 3 →
        compute_arc_lengths [row] = .ok [0]) := by
  have hlen : (rows.map toVec3).length = rows.length := List.length_map _ _
  have hN : 1 ≤ rows.length := by
    cases rows with
    | nil => exact absurd rfl hne
    | cons r rs => simp
  have hall : rows.all (fun r => r.length == 3) = true := by
    rw [List.all_eq_true]
    intro r hr
    simp [h3 r hr]
  have hok : compute_arc_lengths rows = .ok (arcList (rows.map toVec3)) := by
    rw [compute_arc_lengths, if_neg (by simp [hne]), if_neg (by simp [hall])]
  refine ⟨arcList (rows.map toVec3), hok, ?_, ?_, ?_, ?_, ?_, ?_, ?_, ?_⟩
  · rw [arcList, List.length_map, List.length_range, hlen]
  · rw [arcList, hlen, getD_map_range _ _ _ (by omega), arc_length_at]
    simp
  · intro i hi
    rw [arcList, hlen, getD_map_range _ _ _ hi, arc_length_at]
  · intro i j hij hj
    rw [arcList, hlen, getD_map_range _ _ _ (by omega),
      getD_map_range _ _ _ hj]
    exact arc_length_at_mono _ _ _ hij
  · intro f hf
    rw [Filament.from_vertices, if_neg (by simp [hne]),
      if_neg (by simp [hall])] at hf
    by_cases h2 : rows.length < 2
    · rw [if_pos h2] at hf
      exact absurd hf (by simp)
    · rw [if_neg h2] at hf
      cases hf
      rw [Filament.length]
      show (arcList (rows.map toVec3)).getLastD 0 = _
      rw [arcList, hlen, getLastD_map_range _ _ (by omega),
        getD_map_range _ _ _ (by omega)]
  · exact ⟨"vertices must have shape (N, 3)", rfl⟩
  · intro rows2 hex
    obtain ⟨r, hr, hrlen⟩ := hex
    refine ⟨"vertices must have shape (N, 3)", ?_⟩
    have hallf : rows2.all (fun r => r.length == 3) = false := by
      rw [List.all_eq_false]
      exact ⟨r, hr, by simpa using hrlen⟩
    rw [compute_arc_lengths]
    by_cases hemp : rows2.isEmpty
    · rw [if_pos hemp]
    · rw [if_neg hemp, if_pos (by simp [hallf])]
  · intro row hrow
    rw [compute_arc_lengths, if_neg (by simp), if_neg (by simp [hrow])]
    rw [arcList]
    rw [show List.range ((List.map toVec3 [row]).length) = [0] from rfl]
    simp [arc_length_at]

/-- Claim C5 witness: the spec's concrete scenario, vertices
`[(0,0,0), (3,0,0), (3,4,0)]`. -/
theorem compute_arc_lengths_spec_witness :
    ∃ arc : List ℝ,
      compute_arc_lengths [[0, 0, 0], [3, 0, 0], [3, 4, 0]] = .ok arc ∧
      arc.length
        = ([[0, 0, 0], [3, 0, 0], [3, 4, 0]] : List (List ℚ)).length ∧
      arc.getD 0 0 = 0 ∧
      (∀ i, i < ([[0, 0, 0], [3, 0, 0], [3, 4, 0]] : List (List ℚ)).length →
        arc.getD i 0
          = ∑ j ∈ Finset.range i,
              seg_length (([[0, 0, 0], [3, 0, 0], [3, 4, 0]] :
                List (List ℚ)).map toVec3) j) ∧
      (∀ i j, i ≤ j →
        j < ([[0, 0, 0], [3, 0, 0], [3, 4, 0]] : List (List ℚ)).length →
        arc.getD i 0 ≤ arc.getD j 0) ∧
      (∀ f, Filament.from_vertices [[0, 0, 0], [3, 0, 0], [3, 4, 0]]
          = .ok f →
        f.length = arc.getD
          (([[0, 0, 0], [3, 0, 0], [3, 4, 0]] :
            List (List ℚ)).length - 1) 0) ∧
      (∃ msg, compute_arc_lengths ([] : List (List ℚ)) = .error msg) ∧
      (∀ rows2 : List (List ℚ), (∃ r ∈ rows2, r.length ≠ 3) →
        ∃ msg, compute_arc_lengths rows2 = .error msg) ∧
      (∀ row : List ℚ, row.length = 3 →
        compute_arc_lengths [row] = .ok [0]) :=
  compute_arc_lengths_spec [[0, 0, 0], [3, 0, 0], [3, 4, 0]]
    (by decide) (by decide)

/-- Clipping never goes below the lower bound. -/
lemma clipZ_lower (v lo hi : ℤ) : lo ≤ clipZ v lo hi := le_max_left _ _

/-- Claim C7: for every valid coordinate array, positive `n_regions`
and distinct axes in `{0,1,2}`, the assignment succeeds and every
returned region id lies in `[0, n_regions - 1]`: the clipped cell
indices are nonnegative, the flat id `ix + nx * iy` is therefore
nonnegative, and the final clamp caps it at `n_regions - 1`. -/
theorem assign_jackknife_grid_region_ids_in_range
    (rows : List (List ℚ)) (n_regions : ℤ) (axes : ℕ × ℕ)
    (hne : rows ≠ []) (h3 : ∀ r ∈ rows, r.length = 3)
    (hn : 1 ≤ n_regions)
    (hax1 : axes.1 ≤ 2) (hax2 : axes.2 ≤ 2) (haxne : axes.1 ≠ axes.2) :
    ∃ a : JackknifeAssignment,
      assign_jackknife_grid_from_xyz rows n_regions axes = .ok a ∧
      a.n_regions = n_regions ∧
      ∀ id ∈ a.region_ids, 0 ≤ id ∧ id ≤ n_regions - 1 := by
  have hall : rows.all (fun r => r.length == 3) = true := by
    rw [List.all_eq_true]
    intro r hr
    simp [h3 r hr]
  rw [assign_jackknife_grid_from_xyz, if_neg (by simp [hne]),
    if_neg (by simp [hall]), if_neg (by omega),
    if_neg (by simp only [Bool.or_eq_true, decide_eq_true_eq]; omega),
    if_neg (by simp [haxne])]
  refine ⟨_, rfl, rfl, ?_⟩
  intro id hid
  simp only [List.mem_map] at hid
  obtain ⟨pr, _, rfl⟩ := hid
  constructor
  · apply le_min
    · apply add_nonneg
      · exact clipZ_lower _ _ _
      · exact mul_nonneg (Int.natCast_nonneg _) (clipZ_lower _ _ _)
    · omega
  · exact min_le_right _ _

/-- Claim C7 witness: the repository test's four points forming a unit
square in `x`-`y`, with `n_regions = 4` and axes `(0, 1)`. -/
theorem assign_jackknife_grid_region_ids_in_range_witness :
    ∃ a : JackknifeAssignment,
      assign_jackknife_grid_from_xyz
          [[0, 0, 0], [1, 0, 0], [0, 1, 0], [1, 1, 0]] 4 (0, 1) = .ok a ∧
      a.n_regions = 4 ∧
      ∀ id ∈ a.region_ids, 0 ≤ id ∧ id ≤ 4 - 1 :=
  assign_jackknife_grid_region_ids_in_range
    [[0, 0, 0], [1, 0, 0], [0, 1, 0], [1, 1, 0]] 4 (0, 1)
    (by decide) (by decide) (by decide) (by decide) (by decide) (by decide)

/-- Mapping a monadic function over a one-element list in `Except`. -/
lemma except_mapM_singleton {α β : Type} (f : α → Except String β)
    (p : α) :
    List.mapM f [p] = (f p).map (fun r => [r]) := by
  cases h : f p <;>
    simp [List.mapM, List.mapM.loop, h, Except.map, Except.bind]

/-- Claim C10: `Filament.project_points` and
`map_cartesian_to_filament` accept a single flat 3-component point in
place of an `(N, 3)` batch: the 1-D length-3 input is reshaped into a
batch of one, so `project_points` returns exactly the one-element list
`[project_point p]`, the mapping of the flat point coincides with the
mapping of the one-row batch, and the produced mapping has exactly one
row. -/
theorem project_points_flat_singleton (p : List ℚ) (f : Filament)
    (hp : p.length = 3) :
    f.project_points (.flat p)
        = (f.project_point p).map (fun r => [r]) ∧
    map_cartesian_to_filament (.flat p) f
        = map_cartesian_to_filament (.batch [p]) f ∧
    (∀ m, map_cartesian_to_filament (.flat p) f = .ok m →
      m.coords_xyz = [p] ∧ m.distances.length = 1 ∧
        m.s_along.length = 1) := by
  have hp3 : (p.length == 3) = true := by simp [hp]
  have hflat : f.project_points (.flat p)
      = List.mapM f.project_point [p] := by
    rw [Filament.project_points]
    simp only [hp3, if_true]
  have hbatchsafe : f.project_points (.batch [p])
      = List.mapM f.project_point [p] := rfl
  refine ⟨?_, ?_, ?_⟩
  · rw [hflat]
    exact except_mapM_singleton _ _
  · rw [map_cartesian_to_filament, map_cartesian_to_filament]
    simp only [hp3, if_true]
  · intro m hm
    rw [map_cartesian_to_filament] at hm
    simp only [hp3, if_true] at hm
    have hall : ([p].all (fun r => r.length == 3)) = true := by
      simp [hp]
    rw [if_neg (by simp [hall])] at hm
    rw [Filament.distances_and_s_along, hbatchsafe,
      except_mapM_singleton] at hm
    cases hr : f.project_point p with
    | error e =>
      rw [hr] at hm
      exact absurd hm (by simp [Except.map])
    | ok r =>
      rw [hr] at hm
      simp only [Except.map] at hm
      cases hm
      exact ⟨rfl, rfl, rfl⟩

/-- Claim C10 witness: the flat point `[5, 1, 0]` against the filament
with spine `[(0,0,0), (10,0,0)]`. -/
theorem project_points_flat_singleton_witness :
    (Filament.project_points ⟨[⟨0, 0, 0⟩, ⟨10, 0, 0⟩], [0, 10]⟩
          (.flat [5, 1, 0])
        = (Filament.project_point ⟨[⟨0, 0, 0⟩, ⟨10, 0, 0⟩], [0, 10]⟩
            [5, 1, 0]).map (fun r => [r])) ∧
    map_cartesian_to_filament (.flat [5, 1, 0])
          ⟨[⟨0, 0, 0⟩, ⟨10, 0, 0⟩], [0, 10]⟩
        = map_cartesian_to_filament (.batch [[5, 1, 0]])
          ⟨[⟨0, 0, 0⟩, ⟨10, 0, 0⟩], [0, 10]⟩ ∧
    (∀ m, map_cartesian_to_filament (.flat [5, 1, 0])
          ⟨[⟨0, 0, 0⟩, ⟨10, 0, 0⟩], [0, 10]⟩ = .ok m →
      m.coords_xyz = [[5, 1, 0]] ∧ m.distances.length = 1 ∧
        m.s_along.length = 1) :=
  project_points_flat_singleton [5, 1, 0]
    ⟨[⟨0, 0, 0⟩, ⟨10, 0, 0⟩], [0, 10]⟩ (by decide)

end CosmicWeb
